/-
Verification of the observation-extraction module of VLN-CE-Isaac
(`src/isaaclab_exts/omni.isaac.vlnce/omni/isaac/vlnce/vlnce/mdp/observations.py`).

The development shallowly embeds the two numeric pipelines of that file,
`height_map_lidar` (lidar point cloud to per-environment height map) and
`process_lidar` (per-ray height reading normalization), and proves the
claimed properties about them.

Floating-point values that can be NaN or infinite (ray hits, sensor
positions) are modelled by the four-constructor type `EFloat`; finite float
arithmetic is modelled by exact rationals.  Scalar configuration values
(the quaternions of robot state and the `offset` parameter) are modelled as
finite rationals.
-/
import Mathlib

/-- A float value as used by the torch tensors in the source: NaN, +Inf,
-Inf, or a finite value (modelled as an exact rational). -/
inductive EFloat where
  | nan : EFloat
  | pinf : EFloat
  | ninf : EFloat
  | val : ℚ → EFloat
deriving DecidableEq

namespace EFloat

/-- `torch.isnan`. -/
def isNan : EFloat → Bool
  | nan => true
  | _ => false

/-- `torch.isinf` (true for both infinities). -/
def isInf : EFloat → Bool
  | pinf => true
  | ninf => true
  | _ => false

/-- IEEE-754 subtraction on the embedded floats (as performed by torch's
tensor subtraction). -/
def sub : EFloat → EFloat → EFloat
  | nan, _ => nan
  | _, nan => nan
  | pinf, pinf => nan
  | pinf, _ => pinf
  | ninf, ninf => nan
  | ninf, _ => ninf
  | val _, pinf => ninf
  | val _, ninf => pinf
  | val a, val b => val (a - b)

/-- The sanitization of `height_map_lidar` lines 304-305: components that are
infinite are set to `0.0`, then components that are NaN are set to `0.0`. -/
def sanitize (c : EFloat) : EFloat :=
  let c1 := if c.isInf then val 0 else c
  if c1.isNan then val 0 else c1

/-- The finite value carried by an `EFloat`, with junk value `0` on the
non-finite constructors (used only where finiteness has been proved). -/
def toRat : EFloat → ℚ
  | val q => q
  | _ => 0

/-- Minimum as computed by `scatter_reduce_(..., reduce="amin")`:
NaN-propagating, with the usual ordering of the infinities. -/
def amin : EFloat → EFloat → EFloat
  | nan, _ => nan
  | _, nan => nan
  | ninf, _ => ninf
  | _, ninf => ninf
  | pinf, b => b
  | a, pinf => a
  | val a, val b => val (min a b)

/-- Maximum as computed by `F.max_pool2d`: NaN-propagating, with the usual
ordering of the infinities. -/
def amax : EFloat → EFloat → EFloat
  | nan, _ => nan
  | _, nan => nan
  | pinf, _ => pinf
  | _, pinf => pinf
  | ninf, b => b
  | a, ninf => a
  | val a, val b => val (max a b)

/-- IEEE-754 strict less-than (`torch.lt`): false whenever a NaN is
involved. -/
def ltb : EFloat → EFloat → Bool
  | nan, _ => false
  | _, nan => false
  | ninf, ninf => false
  | ninf, _ => true
  | pinf, _ => false
  | val _, pinf => true
  | val _, ninf => false
  | val a, val b => decide (a < b)

/-- IEEE-754 less-or-equal: false whenever a NaN is involved. -/
def leb : EFloat → EFloat → Bool
  | nan, _ => false
  | _, nan => false
  | ninf, _ => true
  | _, pinf => true
  | pinf, _ => false
  | val _, ninf => false
  | val a, val b => decide (a ≤ b)

theorem sanitize_eq_val (c : EFloat) : sanitize c = val (sanitize c).toRat := by
  cases c <;> rfl

theorem sanitize_sub_self (p : EFloat) : sanitize (sub p p) = val 0 := by
  cases p <;> simp [sub, sanitize, isInf, isNan, toRat]

theorem sanitize_sub_nan (p : EFloat) : sanitize (sub nan p) = val 0 := by
  cases p <;> rfl

end EFloat

/-- A finite 3D vector (sensor-local coordinates after sanitization). -/
structure V3 where
  x : ℚ
  y : ℚ
  z : ℚ
deriving DecidableEq

/-- A 3D vector of possibly non-finite floats (raw world-frame data). -/
structure EV3 where
  x : EFloat
  y : EFloat
  z : EFloat
deriving DecidableEq

/-- A quaternion in the (w, x, y, z) convention, modelled with finite
components (the source requires unit-norm quaternions from the caller). -/
structure Quat where
  w : ℚ
  x : ℚ
  y : ℚ
  z : ℚ
deriving DecidableEq

/-- Models `omni.isaac.lab.utils.math.quat_mul` (the Hamilton product in the
(w, x, y, z) convention), an external collaborator of the source file. -/
def quat_mul (q1 q2 : Quat) : Quat where
  w := q1.w * q2.w - q1.x * q2.x - q1.y * q2.y - q1.z * q2.z
  x := q1.w * q2.x + q1.x * q2.w + q1.y * q2.z - q1.z * q2.y
  y := q1.w * q2.y + q1.y * q2.w + q1.z * q2.x - q1.x * q2.z
  z := q1.w * q2.z + q1.z * q2.w + q1.x * q2.y - q1.y * q2.x

/-- Models `omni.isaac.lab.utils.math.quat_rotate_inverse`, an external
collaborator of the source file: `a - b + c` with `a = v * (2 w^2 - 1)`,
`b = 2 w (u × v)`, `c = 2 u (u ⬝ v)`, where `u` is the vector part. -/
def quat_rotate_inverse (q : Quat) (v : V3) : V3 :=
  let s : ℚ := 2 * q.w * q.w - 1
  let cx : ℚ := q.y * v.z - q.z * v.y
  let cy : ℚ := q.z * v.x - q.x * v.z
  let cz : ℚ := q.x * v.y - q.y * v.x
  let d : ℚ := q.x * v.x + q.y * v.y + q.z * v.z
  { x := v.x * s - cx * q.w * 2 + q.x * d * 2
    y := v.y * s - cy * q.w * 2 + q.y * d * 2
    z := v.z * s - cz * q.w * 2 + q.z * d * 2 }

/-- The hard-coded sensor mount quaternion of `height_map_lidar`
(source line 310): `torch.tensor([-0.131, 0.0, -0.991, 0.0])`. -/
def sensor_quat_default : Quat := ⟨-131/1000, 0, -991/1000, 0⟩

/-- Module-level constant `voxel_size_xy = 0.06` (source line 283). -/
def voxel_size_xy : ℚ := 6/100

/-- Module-level constant `range_x = [-0.8, 0.2 + 1e-9]` (source line 284). -/
def range_x : ℚ × ℚ := (-(8/10), 2/10 + 1/1000000000)

/-- Module-level constant `range_y = [-0.8, 0.8 + 1e-9]` (source line 286). -/
def range_y : ℚ × ℚ := (-(8/10), 8/10 + 1/1000000000)

/-- Module-level constant `range_z = [0.0, 5.0]` (source line 287). -/
def range_z : ℚ × ℚ := (0, 5)

/-- Number of elements produced by `torch.arange(lo, hi, step)` for a
positive step: the count of multiples `lo + k * step` lying in `[lo, hi)`. -/
def arangeLen (lo hi step : ℚ) : ℕ := (Rat.ceil ((hi - lo) / step)).toNat

/-- `torch.arange(lo, hi, step)` in exact arithmetic. -/
def arange (lo hi step : ℚ) : List ℚ :=
  (List.range (arangeLen lo hi step)).map fun k => lo + (k : ℚ) * step

/-- `x_bins = torch.arange(range_x[0], range_x[1], voxel_size_xy)`
(source line 319). -/
def x_bins : List ℚ := arange range_x.1 range_x.2 voxel_size_xy

/-- `y_bins = torch.arange(range_y[0], range_y[1], voxel_size_xy)`
(source line 320). -/
def y_bins : List ℚ := arange range_y.1 range_y.2 voxel_size_xy

/-- `len(x_bins)`, the number of grid cells along x. -/
def Bx : ℕ := x_bins.length

/-- `len(y_bins)`, the number of grid cells along y. -/
def By : ℕ := y_bins.length

/-- `torch.bucketize(v, bs)` with the default `right=False` for a sorted
boundary list: the index of the first boundary that `v` does not exceed,
i.e. the number of boundaries strictly less than `v`. -/
def bucketize (v : ℚ) (bs : List ℚ) : ℕ := bs.countP fun b => decide (b < v)

/-- The range filter of `height_map_lidar` (source lines 326-328):
`(x > range_x[0]) & (x <= range_x[1]) & (y > range_y[0]) & (y <= range_y[1])
& (z >= range_z[0]) & (z <= range_z[1])`. -/
def inRange (v : V3) : Bool :=
  decide (range_x.1 < v.x) && decide (v.x ≤ range_x.2) &&
  decide (range_y.1 < v.y) && decide (v.y ≤ range_y.2) &&
  decide (range_z.1 ≤ v.z) && decide (v.z ≤ range_z.2)

theorem Bx_eq : Bx = 17 := by with_unfolding_all decide

theorem By_eq : By = 27 := by with_unfolding_all decide

/-- The input of `height_map_lidar` for one environment instance:
`sensor.data.ray_hits_w[e]`, `sensor.data.pos_w[e]`, and
`env.scene["robot"].data.root_quat_w[e]`. -/
structure LidarEnvInput where
  rayHits : List EV3
  pos : EV3
  robotQuat : Quat
deriving DecidableEq

/-- Lines 303-305: `hit_vec = ray_hits_w - pos_w`, then infinite components
are set to `0.0`, then NaN components are set to `0.0`.  The result is
always finite, so it is carried as a `V3` (justified by
`EFloat.sanitize_eq_val`). -/
def hitVecSanitized (hit pos : EV3) : V3 where
  x := (EFloat.sanitize (hit.x.sub pos.x)).toRat
  y := (EFloat.sanitize (hit.y.sub pos.y)).toRat
  z := (EFloat.sanitize (hit.z.sub pos.z)).toRat

/-- Lines 309-314: rotate every sanitized hit vector of an environment into
the sensor's local frame with the inverse of
`quat_mul(robot_root_quat, sensor_quat_default)`. -/
def localPoints (inp : LidarEnvInput) : List V3 :=
  inp.rayHits.map fun h =>
    quat_rotate_inverse (quat_mul inp.robotQuat sensor_quat_default)
      (hitVecSanitized h inp.pos)

/-- Line 341: the flat scatter index
`env * len(x_bins) * len(y_bins) + (bucketize x - 1) * len(y_bins) +
(bucketize y - 1)` of a surviving point (computed in `ℤ` as the source
computes it on signed integer tensors). -/
def flatIdx (e : ℕ) (v : V3) : ℤ :=
  (e : ℤ) * ((Bx : ℤ) * (By : ℤ)) +
    ((bucketize v.x x_bins : ℤ) - 1) * (By : ℤ) +
    ((bucketize v.y y_bins : ℤ) - 1)

/-- The `(linear index, z)` pairs contributed by environment `e`: its local
points surviving the range filter, with their scatter index (lines
326-341). -/
def binnedEnv (e : ℕ) (inp : LidarEnvInput) : List (ℤ × ℚ) :=
  ((localPoints inp).filter inRange).map fun v => (flatIdx e v, v.z)

/-- The `(linear index, z)` pairs of all environments starting at
environment index `e0`, in the batch-major order in which the source
flattens the filtered tensors. -/
def binnedFrom (e0 : ℕ) : List LidarEnvInput → List (ℤ × ℚ)
  | [] => []
  | inp :: rest => binnedEnv e0 inp ++ binnedFrom (e0 + 1) rest

/-- All `(linear index, z)` pairs of the batch. -/
def binned (batch : List LidarEnvInput) : List (ℤ × ℚ) :=
  binnedFrom 0 batch

/-- One update of `scatter_reduce_(0, linear_indices, z_filtered,
reduce="amin")`: the destination cell becomes the amin of its current value
and the source value.  Out-of-bounds indices update nothing (the source
asserts they do not occur; the in-bounds property is proved below). -/
def scatterStep (m : List EFloat) (p : ℤ × ℚ) : List EFloat :=
  if 0 ≤ p.1 ∧ p.1.toNat < m.length then
    m.set p.1.toNat (EFloat.amin (m.getD p.1.toNat EFloat.nan) (EFloat.val p.2))
  else m

/-- The whole scatter-reduce: sequential amin updates over all entries. -/
def scatterAmin (init : List EFloat) (entries : List (ℤ × ℚ)) : List EFloat :=
  entries.foldl scatterStep init

/-- Line 340 and the scatter of line 350: the flat raw height map, a buffer
of `num_envs * Bx * By` cells pre-filled with `float('inf')` and reduced by
amin over all surviving points. -/
def rawMapList (batch : List LidarEnvInput) : List EFloat :=
  scatterAmin (List.replicate (batch.length * (Bx * By)) EFloat.pinf) (binned batch)

/-- Line 350, tail: `- offset` applied to every cell. -/
def subOffset (offset : ℚ) (c : EFloat) : EFloat := c.sub (EFloat.val offset)

/-- Line 351: `torch.where(map < 0.05, 0.0, map)`. -/
def threshold05 (c : EFloat) : EFloat :=
  if c.ltb (EFloat.val (5/100)) then EFloat.val 0 else c

/-- Line 358: `torch.where(torch.isinf(map), 0.0, map)`. -/
def replaceInf (c : EFloat) : EFloat :=
  if c.isInf then EFloat.val 0 else c

/-- The finalized flat height map: raw map, minus offset, noise threshold,
empty cells (still infinite) replaced by `0.0` (lines 350-358). -/
def finalMapList (batch : List LidarEnvInput) (offset : ℚ) : List EFloat :=
  (((rawMapList batch).map (subOffset offset)).map threshold05).map replaceInf

/-- Reading one grid cell of the finalized map for the max-pool window:
positions outside the `Bx × By` grid give `-Inf`, the implicit padding value
of `F.max_pool2d` (padding=1). -/
def cellAtF (fm : List EFloat) (e : ℕ) (i j : ℤ) : EFloat :=
  if 0 ≤ i ∧ i < (Bx : ℤ) ∧ 0 ≤ j ∧ j < (By : ℤ) then
    fm.getD (e * (Bx * By) + i.toNat * By + j.toNat) EFloat.nan
  else EFloat.ninf

/-- The 3×3 max-pool window centered at grid cell `(i, j)` (kernel 3,
stride 1, padding 1, as in line 364). -/
def poolWindow (fm : List EFloat) (e : ℕ) (i j : ℕ) : List EFloat :=
  [cellAtF fm e ((i : ℤ) - 1) ((j : ℤ) - 1),
   cellAtF fm e ((i : ℤ) - 1) (j : ℤ),
   cellAtF fm e ((i : ℤ) - 1) ((j : ℤ) + 1),
   cellAtF fm e (i : ℤ) ((j : ℤ) - 1),
   cellAtF fm e (i : ℤ) (j : ℤ),
   cellAtF fm e (i : ℤ) ((j : ℤ) + 1),
   cellAtF fm e ((i : ℤ) + 1) ((j : ℤ) - 1),
   cellAtF fm e ((i : ℤ) + 1) (j : ℤ),
   cellAtF fm e ((i : ℤ) + 1) ((j : ℤ) + 1)]

/-- One output cell of the max-pool: the maximum over the 3×3 window. -/
def pooledCell (fm : List EFloat) (e : ℕ) (i j : ℕ) : EFloat :=
  (poolWindow fm e i j).foldl EFloat.amax EFloat.ninf

/-- The whole `height_map_lidar` computation (source lines 293-385) on a
batch of environment inputs: per environment, the flattened row-major
(`x`-major) `Bx × By` grid of max-pooled finalized heights. -/
def height_map_lidar (batch : List LidarEnvInput) (offset : ℚ) :
    List (List EFloat) :=
  let fm := finalMapList batch offset
  (List.range batch.length).map fun e =>
    (List.range (Bx * By)).map fun fl => pooledCell fm e (fl / By) (fl % By)

/-- One element of `process_lidar` (source lines 137-149): the height
reading `pos_z - hit_z - offset`, NaN and infinite readings replaced by the
far clip `5.0`, clipped to `[0.0, 5.0]`, then affinely normalized by
`(x - 0.0) / (5.0 - 0.0) - 0.5`. -/
def process_lidar_elem (pz hz : EFloat) (offset : ℚ) : EFloat :=
  let r := (pz.sub hz).sub (EFloat.val offset)
  let r1 := if r.isNan then EFloat.val 5 else r
  let r2 := if r1.isInf then EFloat.val 5 else r1
  let r3 := EFloat.amin (EFloat.amax r2 (EFloat.val 0)) (EFloat.val 5)
  match r3 with
  | EFloat.val q => EFloat.val ((q - 0) / (5 - 0) - 1/2)
  | EFloat.pinf => EFloat.pinf
  | EFloat.ninf => EFloat.ninf
  | EFloat.nan => EFloat.nan

/-- The whole `process_lidar` computation: per environment, the sensor
position and the ray hits (only the z components are read by the source). -/
def process_lidar (envs : List (EV3 × List EV3)) (offset : ℚ) :
    List (List EFloat) :=
  envs.map fun pe => pe.2.map fun h => process_lidar_elem pe.1.z h.z offset

/-- The module-level deque `prev_height_maps = deque(maxlen=10)` (source
lines 289-291), modelled as the list of retained height maps. -/
def prev_height_maps_state : Type := List (List (List EFloat))

/-- `height_map_lidar` with the module-level deque threaded explicitly as
state.  Every statement of the active function body (lines 293-385) is a
pure tensor computation; the only statements mentioning `prev_height_maps`
(lines 354-355) are commented out, so the translated body neither reads nor
writes the state. -/
def height_map_lidar_with_state (st : List (List (List EFloat)))
    (batch : List LidarEnvInput) (offset : ℚ) :
    List (List (List EFloat)) × List (List EFloat) :=
  (st, height_map_lidar batch offset)

/-! ### Concrete inputs used by witnesses and counterexamples -/

/-- A finite zero world vector. -/
def zeroEV : EV3 := ⟨EFloat.val 0, EFloat.val 0, EFloat.val 0⟩

/-- A fully-NaN ray hit ("no hit" marker). -/
def nanEV : EV3 := ⟨EFloat.nan, EFloat.nan, EFloat.nan⟩

/-- The conjugate of the hard-coded mount quaternion; composing it with
`sensor_quat_default` gives a real quaternion, making the effective local
frame an explicit scaling. -/
def mountConj : Quat := ⟨-131/1000, 0, 991/1000, 0⟩

/-- The world z displacement whose sensor-local z is exactly `1.2` under
the `mountConj` robot orientation. -/
def tZ : ℚ := 150000000000/124621143641

/-- A world hit whose sensor-local coordinates are `(0, 0, 1.2)` under the
`mountConj` robot orientation and zero sensor position. -/
def goodHit : EV3 := ⟨EFloat.val 0, EFloat.val 0, EFloat.val tZ⟩

/-- A world hit whose sensor-local z is negative under the `mountConj`
robot orientation (dropped by the `z ≥ 0` filter). -/
def dummyHit : EV3 := ⟨EFloat.val 0, EFloat.val 0, EFloat.val (-1)⟩

/-- The default environment used by `List.getD` on batches. -/
def dfltEnv : LidarEnvInput := ⟨[], zeroEV, ⟨1, 0, 0, 0⟩⟩

/-! ### Generic list lemmas -/

theorem list_getD_mem {α : Type} {l : List α} {i : ℕ} (h : i < l.length)
    (d : α) : l.getD i d ∈ l := by
  induction l generalizing i with
  | nil => simp at h
  | cons a t ih =>
    cases i with
    | zero => simp [List.getD]
    | succ n =>
      simp only [List.getD_cons_succ]
      exact List.mem_cons_of_mem a (ih (by simpa using h) )

theorem list_getD_set {α : Type} (l : List α) (k j : ℕ) (a d : α)
    (hj : j < l.length) :
    (l.set k a).getD j d = if k = j then a else l.getD j d := by
  simp only [List.getD_eq_getElem?_getD, List.getElem?_set]
  by_cases h : k = j <;> simp [h, hj]

theorem list_getD_replicate {α : Type} (n j : ℕ) (a d : α) (hj : j < n) :
    (List.replicate n a).getD j d = a := by
  simp [List.getD_eq_getElem?_getD, List.getElem?_replicate, hj]

theorem list_getD_map {α β : Type} (f : α → β) (l : List α) (j : ℕ)
    (d : β) (d2 : α) (hj : j < l.length) :
    (l.map f).getD j d = f (l.getD j d2) := by
  simp only [List.getD_eq_getElem?_getD, List.getElem?_map]
  rw [List.getElem?_eq_getElem hj]
  simp

/-! ### Scatter-reduce lemmas -/

theorem scatterStep_length (m : List EFloat) (p : ℤ × ℚ) :
    (scatterStep m p).length = m.length := by
  unfold scatterStep
  split <;> simp

theorem scatterAmin_length (entries : List (ℤ × ℚ)) (init : List EFloat) :
    (scatterAmin init entries).length = init.length := by
  induction entries generalizing init with
  | nil => rfl
  | cons p rest ih =>
    show (scatterAmin (scatterStep init p) rest).length = _
    rw [ih, scatterStep_length]

theorem scatterStep_getD (m : List EFloat) (p : ℤ × ℚ) (j : ℕ) (d : EFloat)
    (hj : j < m.length) :
    (scatterStep m p).getD j d =
      if p.1 = (j : ℤ) then EFloat.amin (m.getD j d) (EFloat.val p.2)
      else m.getD j d := by
  unfold scatterStep
  by_cases hp : p.1 = (j : ℤ)
  · have h0 : 0 ≤ p.1 := by omega
    have ht : p.1.toNat = j := by omega
    have : 0 ≤ p.1 ∧ p.1.toNat < m.length := ⟨h0, by omega⟩
    rw [if_pos this, if_pos hp, ht, list_getD_set _ _ _ _ _ hj, if_pos rfl]
    have : m.getD j EFloat.nan = m.getD j d := by
      simp [List.getD_eq_getElem?_getD, List.getElem?_eq_getElem hj]
    rw [this]
  · rw [if_neg hp]
    split
    · next hb =>
      rw [list_getD_set _ _ _ _ _ hj, if_neg (by omega)]
    · rfl

theorem scatterAmin_getD (entries : List (ℤ × ℚ)) (init : List EFloat)
    (j : ℕ) (d : EFloat) (hj : j < init.length) :
    (scatterAmin init entries).getD j d =
      (entries.filter fun p => p.1 == (j : ℤ)).foldl
        (fun acc p => EFloat.amin acc (EFloat.val p.2)) (init.getD j d) := by
  induction entries generalizing init with
  | nil => rfl
  | cons p rest ih =>
    show (scatterAmin (scatterStep init p) rest).getD j d = _
    rw [ih (scatterStep init p) (by rw [scatterStep_length]; exact hj)]
    rw [scatterStep_getD init p j d hj]
    by_cases hp : p.1 = (j : ℤ)
    · simp [List.filter_cons, hp]
    · simp [List.filter_cons, hp]

/-! ### Bucketize bounds for surviving points -/

theorem x_bins_length : x_bins.length = 17 := Bx_eq

theorem y_bins_length : y_bins.length = 27 := By_eq

theorem range_x_lo_mem : range_x.1 ∈ x_bins := by with_unfolding_all decide

theorem range_y_lo_mem : range_y.1 ∈ y_bins := by with_unfolding_all decide

theorem bucketize_le_length (v : ℚ) (bs : List ℚ) :
    bucketize v bs ≤ bs.length :=
  List.countP_le_length _

theorem one_le_bucketize {v : ℚ} {bs : List ℚ} {b : ℚ} (hb : b ∈ bs)
    (hlt : b < v) : 1 ≤ bucketize v bs := by
  have : 0 < bucketize v bs := by
    unfold bucketize
    exact List.countP_pos_iff.mpr ⟨b, hb, by simpa using hlt⟩
  omega

/-- The Prop version of the range filter. -/
theorem inRange_iff (v : V3) :
    inRange v = true ↔
      (range_x.1 < v.x ∧ v.x ≤ range_x.2 ∧ range_y.1 < v.y ∧
       v.y ≤ range_y.2 ∧ range_z.1 ≤ v.z ∧ v.z ≤ range_z.2) := by
  unfold inRange
  simp [Bool.and_eq_true, decide_eq_true_eq, and_assoc]

/-- A surviving point's bucketize results lie in `[1, Bx]` and `[1, By]`,
so its bin indices (after the `- 1`) lie inside the grid. -/
theorem inRange_bucketize_bounds {v : V3} (h : inRange v = true) :
    1 ≤ bucketize v.x x_bins ∧ bucketize v.x x_bins ≤ Bx ∧
    1 ≤ bucketize v.y y_bins ∧ bucketize v.y y_bins ≤ By := by
  obtain ⟨hx1, _, hy1, _, _, _⟩ := (inRange_iff v).mp h
  exact ⟨one_le_bucketize range_x_lo_mem hx1, bucketize_le_length _ _,
    one_le_bucketize range_y_lo_mem hy1, bucketize_le_length _ _⟩

/-! ### Locating a cell's points inside the flat scatter stream -/

theorem mem_binnedEnv_bounds {e : ℕ} {inp : LidarEnvInput} {p : ℤ × ℚ}
    (hp : p ∈ binnedEnv e inp) :
    (e : ℤ) * ((Bx : ℤ) * (By : ℤ)) ≤ p.1 ∧
      p.1 < ((e : ℤ) + 1) * ((Bx : ℤ) * (By : ℤ)) := by
  unfold binnedEnv at hp
  obtain ⟨v, hv, rfl⟩ := List.mem_map.mp hp
  have hr := (List.mem_filter.mp hv).2
  obtain ⟨hx1, hx2, hy1, hy2⟩ := inRange_bucketize_bounds hr
  unfold flatIdx
  rw [Bx_eq] at hx2 ⊢
  rw [By_eq] at hy2 ⊢
  push_cast
  constructor
  · nlinarith [hx1, hy1, hx2, hy2]
  · nlinarith [hx1, hy1, hx2, hy2]

theorem mem_binnedFrom_lower {e0 : ℕ} {envs : List LidarEnvInput}
    {p : ℤ × ℚ} (hp : p ∈ binnedFrom e0 envs) :
    (e0 : ℤ) * ((Bx : ℤ) * (By : ℤ)) ≤ p.1 := by
  induction envs generalizing e0 with
  | nil => simp [binnedFrom] at hp
  | cons inp rest ih =>
    unfold binnedFrom at hp
    rcases List.mem_append.mp hp with h | h
    · exact (mem_binnedEnv_bounds h).1
    · have := ih h
      have hle : (e0 : ℤ) * ((Bx : ℤ) * (By : ℤ)) ≤
          ((e0 : ℕ) + 1 : ℕ) * ((Bx : ℤ) * (By : ℤ)) := by
        push_cast
        nlinarith [Bx_eq, By_eq]
      calc (e0 : ℤ) * ((Bx : ℤ) * (By : ℤ))
          ≤ (((e0 + 1) : ℕ) : ℤ) * ((Bx : ℤ) * (By : ℤ)) := by push_cast; nlinarith
        _ ≤ p.1 := this

/-- The points of environment `inp` binned into grid cell `(x, y)`:
surviving points whose bin indices are `x` and `y`. -/
def cellPoints (inp : LidarEnvInput) (x y : ℕ) : List V3 :=
  ((localPoints inp).filter inRange).filter fun v =>
    (bucketize v.x x_bins == x + 1) && (bucketize v.y y_bins == y + 1)

/-- The z values of the points of environment `inp` binned into cell
`(x, y)`. -/
def cellZs (inp : LidarEnvInput) (x y : ℕ) : List ℚ :=
  (cellPoints inp x y).map V3.z

/-- The flat index of cell `(x, y)` of environment `e`. -/
def cellFlat (e x y : ℕ) : ℕ := e * (Bx * By) + x * By + y

theorem binnedEnv_filter_cell (e x y : ℕ) (inp : LidarEnvInput)
    (hx : x < Bx) (hy : y < By) :
    ((binnedEnv e inp).filter fun p => p.1 == ((cellFlat e x y : ℕ) : ℤ)) =
      (cellPoints inp x y).map fun v => (flatIdx e v, v.z) := by
  unfold binnedEnv cellPoints
  rw [List.filter_map]
  congr 1
  apply List.filter_congr
  intro v hv
  have hr := (List.mem_filter.mp hv).2
  obtain ⟨hx1, hx2, hy1, hy2⟩ := inRange_bucketize_bounds hr
  simp only [Function.comp]
  have hciff : flatIdx e v = ((cellFlat e x y : ℕ) : ℤ) ↔
      (bucketize v.x x_bins = x + 1 ∧ bucketize v.y y_bins = y + 1) := by
    unfold flatIdx cellFlat
    rw [Bx_eq] at hx hx2 ⊢
    rw [By_eq] at hy hy2 ⊢
    constructor
    · intro h
      push_cast at h
      constructor <;> omega
    · rintro ⟨h1, h2⟩
      rw [h1, h2]
      push_cast
      ring
  rw [Bool.eq_iff_iff]
  simp only [beq_iff_eq, Bool.and_eq_true]
  exact hciff

theorem cellFlat_lt (e x y : ℕ) (hx : x < Bx) (hy : y < By) :
    cellFlat e x y < (e + 1) * (Bx * By) := by
  unfold cellFlat
  rw [Bx_eq] at hx
  rw [By_eq] at hy
  rw [Bx_eq, By_eq]
  omega

theorem binnedFrom_filter (envs : List LidarEnvInput) :
    ∀ (e0 e x y : ℕ) (inp : LidarEnvInput), envs[e]? = some inp →
    x < Bx → y < By →
    ((binnedFrom e0 envs).filter
        fun p => p.1 == ((cellFlat (e0 + e) x y : ℕ) : ℤ)) =
      ((binnedEnv (e0 + e) inp).filter
        fun p => p.1 == ((cellFlat (e0 + e) x y : ℕ) : ℤ)) := by
  induction envs with
  | nil => intro e0 e x y inp h; simp at h
  | cons inp0 rest ih =>
    intro e0 e x y inp h hx hy
    cases e with
    | zero =>
      have hinp : inp0 = inp := by simpa using h
      subst hinp
      show ((binnedEnv e0 inp0 ++ binnedFrom (e0 + 1) rest).filter _) = _
      rw [List.filter_append]
      have hnil : ((binnedFrom (e0 + 1) rest).filter
          fun p => p.1 == ((cellFlat (e0 + 0) x y : ℕ) : ℤ)) = [] := by
        rw [List.filter_eq_nil_iff]
        intro p hp
        have hlow := mem_binnedFrom_lower hp
        have hupp := cellFlat_lt e0 x y hx hy
        simp only [beq_iff_eq]
        rw [Bx_eq, By_eq] at hlow
        have : ((cellFlat (e0 + 0) x y : ℕ) : ℤ) < ((e0 : ℤ) + 1) * (17 * 27) := by
          have := cellFlat_lt (e0 + 0) x y hx hy
          rw [Bx_eq, By_eq] at this
          push_cast
          omega
        push_cast at hlow this ⊢
        omega
      rw [hnil, List.append_nil]
      simp
    | succ n =>
      show ((binnedEnv e0 inp0 ++ binnedFrom (e0 + 1) rest).filter _) = _
      rw [List.filter_append]
      have hnil : ((binnedEnv e0 inp0).filter
          fun p => p.1 == ((cellFlat (e0 + (n + 1)) x y : ℕ) : ℤ)) = [] := by
        rw [List.filter_eq_nil_iff]
        intro p hp
        have hupp := (mem_binnedEnv_bounds hp).2
        simp only [beq_iff_eq]
        rw [Bx_eq, By_eq] at hupp
        have hlow : ((e0 + (n + 1)) * (Bx * By) : ℕ) ≤ cellFlat (e0 + (n + 1)) x y := by
          unfold cellFlat
          omega
        rw [Bx_eq, By_eq] at hlow
        push_cast at hupp ⊢
        omega
      rw [hnil, List.nil_append]
      have h' : rest[n]? = some inp := by simpa using h
      have := ih (e0 + 1) n x y inp h' hx hy
      have harr : e0 + 1 + n = e0 + (n + 1) := by omega
      rw [harr] at this
      exact this

theorem foldl_amin_from_val (zs : List ℚ) :
    ∀ (a : ℚ), zs.foldl (fun acc z => EFloat.amin acc (EFloat.val z))
      (EFloat.val a) = EFloat.val (zs.foldl min a) := by
  induction zs with
  | nil => intro a; rfl
  | cons z rest ih => intro a; exact ih (min a z)

theorem foldl_amin_min? (zs : List ℚ) :
    zs.foldl (fun acc z => EFloat.amin acc (EFloat.val z)) EFloat.pinf =
      (match zs.min? with
       | none => EFloat.pinf
       | some m => EFloat.val m) := by
  cases zs with
  | nil => rfl
  | cons z rest =>
    show rest.foldl _ (EFloat.amin EFloat.pinf (EFloat.val z)) = _
    have : EFloat.amin EFloat.pinf (EFloat.val z) = EFloat.val z := rfl
    rw [this, foldl_amin_from_val]
    rfl

theorem rawMapList_length (batch : List LidarEnvInput) :
    (rawMapList batch).length = batch.length * (Bx * By) := by
  unfold rawMapList
  rw [scatterAmin_length, List.length_replicate]

theorem finalMapList_length (batch : List LidarEnvInput) (offset : ℚ) :
    (finalMapList batch offset).length = batch.length * (Bx * By) := by
  unfold finalMapList
  simp [rawMapList_length]

theorem cellFlat_lt_total (batch : List LidarEnvInput) (e x y : ℕ)
    (he : e < batch.length) (hx : x < Bx) (hy : y < By) :
    cellFlat e x y < batch.length * (Bx * By) := by
  have h1 := cellFlat_lt e x y hx hy
  have h2 : (e + 1) * (Bx * By) ≤ batch.length * (Bx * By) :=
    Nat.mul_le_mul_right _ he
  omega

theorem rawMap_cell_eq (batch : List LidarEnvInput) (e x y : ℕ)
    (he : e < batch.length) (hx : x < Bx) (hy : y < By) :
    (rawMapList batch).getD (cellFlat e x y) EFloat.nan =
      (match (cellZs (batch.getD e dfltEnv) x y).min? with
       | none => EFloat.pinf
       | some m => EFloat.val m) := by
  have hlen : cellFlat e x y <
      (List.replicate (batch.length * (Bx * By)) EFloat.pinf).length := by
    rw [List.length_replicate]
    exact cellFlat_lt_total batch e x y he hx hy
  unfold rawMapList
  rw [scatterAmin_getD _ _ _ _ hlen]
  rw [list_getD_replicate _ _ _ _ (by simpa using hlen)]
  have hsome : batch[e]? = some (batch.getD e dfltEnv) := by
    rw [List.getElem?_eq_getElem he]
    rw [List.getD_eq_getElem?_getD, List.getElem?_eq_getElem he]
    rfl
  have hfe : binned batch = binnedFrom 0 batch := rfl
  rw [hfe]
  have hfilter := binnedFrom_filter batch 0 e x y (batch.getD e dfltEnv)
    hsome hx hy
  rw [Nat.zero_add] at hfilter
  rw [hfilter]
  rw [binnedEnv_filter_cell e x y _ hx hy]
  rw [List.foldl_map]
  have : (cellPoints (batch.getD e dfltEnv) x y).foldl
      (fun acc v => EFloat.amin acc (EFloat.val v.z)) EFloat.pinf =
      (cellZs (batch.getD e dfltEnv) x y).foldl
      (fun acc z => EFloat.amin acc (EFloat.val z)) EFloat.pinf := by
    unfold cellZs
    rw [List.foldl_map]
  rw [this, foldl_amin_min?]

/-- C1: in `height_map_lidar`, the raw stored cell height (before the
offset subtraction and post-processing) at flat index
`e * Bx * By + x * By + y` is the minimum local-frame z over the surviving
points of environment `e` binned into cell `(x, y)` — points of other
environments never reach this index — and a cell with no mapped point keeps
the `+Inf` fill of the reduction and becomes exactly `0.0` in the finalized
map (offset subtraction, then `Inf` replacement). -/
theorem height_map_raw_cell_min (batch : List LidarEnvInput) (offset : ℚ)
    (e x y : ℕ) (he : e < batch.length) (hx : x < Bx) (hy : y < By) :
    ((rawMapList batch).getD (cellFlat e x y) EFloat.nan =
      (match (cellZs (batch.getD e dfltEnv) x y).min? with
       | none => EFloat.pinf
       | some m => EFloat.val m)) ∧
    (cellZs (batch.getD e dfltEnv) x y = [] →
      (finalMapList batch offset).getD (cellFlat e x y) EFloat.nan =
        EFloat.val 0) := by
  refine ⟨rawMap_cell_eq batch e x y he hx hy, ?_⟩
  intro hempty
  have hraw := rawMap_cell_eq batch e x y he hx hy
  rw [hempty] at hraw
  have hlen : cellFlat e x y < (rawMapList batch).length := by
    rw [rawMapList_length]
    exact cellFlat_lt_total batch e x y he hx hy
  unfold finalMapList
  rw [list_getD_map _ _ _ EFloat.nan EFloat.nan (by simpa using hlen),
      list_getD_map _ _ _ EFloat.nan EFloat.nan (by simpa using hlen),
      list_getD_map _ _ _ EFloat.nan EFloat.nan hlen]
  rw [hraw]
  rfl

/-! ### Shape of the cells: the output dichotomy -/

/-- The claimed dichotomy for finalized cells: exactly `0.0`, or at least
`0.05`. -/
def heightDichotomy (c : EFloat) : Prop :=
  c = EFloat.val 0 ∨ ∃ q : ℚ, c = EFloat.val q ∧ 5/100 ≤ q

theorem amin_shape {a : EFloat} (ha : a = EFloat.pinf ∨ ∃ q, a = EFloat.val q)
    (z : ℚ) : EFloat.amin a (EFloat.val z) = EFloat.pinf ∨
      ∃ q, EFloat.amin a (EFloat.val z) = EFloat.val q := by
  rcases ha with rfl | ⟨q, rfl⟩
  · exact Or.inr ⟨z, rfl⟩
  · exact Or.inr ⟨min q z, rfl⟩

theorem scatterAmin_shape (entries : List (ℤ × ℚ)) :
    ∀ (init : List EFloat),
      (∀ c ∈ init, c = EFloat.pinf ∨ ∃ q, c = EFloat.val q) →
      ∀ c ∈ scatterAmin init entries,
        c = EFloat.pinf ∨ ∃ q, c = EFloat.val q := by
  induction entries with
  | nil => intro init hinit c hc; exact hinit c hc
  | cons p rest ih =>
    intro init hinit c hc
    refine ih (scatterStep init p) ?_ c hc
    intro c' hc'
    unfold scatterStep at hc'
    split at hc'
    · next hguard =>
      rcases List.mem_or_eq_of_mem_set hc' with h | rfl
      · exact hinit c' h
      · exact amin_shape (hinit _ (list_getD_mem hguard.2 _)) _
    · exact hinit c' hc'

theorem rawMapList_shape (batch : List LidarEnvInput) :
    ∀ c ∈ rawMapList batch, c = EFloat.pinf ∨ ∃ q, c = EFloat.val q := by
  unfold rawMapList
  apply scatterAmin_shape
  intro c hc
  exact Or.inl (List.eq_of_mem_replicate hc)

theorem finalMapList_shape (batch : List LidarEnvInput) (offset : ℚ) :
    ∀ c ∈ finalMapList batch offset, heightDichotomy c := by
  unfold finalMapList
  intro c hc
  obtain ⟨c1, hc1, rfl⟩ := List.mem_map.mp hc
  obtain ⟨c2, hc2, rfl⟩ := List.mem_map.mp hc1
  obtain ⟨c0, hc0, rfl⟩ := List.mem_map.mp hc2
  rcases rawMapList_shape batch c0 hc0 with rfl | ⟨q, rfl⟩
  · exact Or.inl rfl
  · show heightDichotomy (replaceInf (threshold05 (EFloat.val (q - offset))))
    unfold threshold05
    by_cases h : (q - offset) < 5/100
    · rw [if_pos (by simpa [EFloat.ltb] using h)]
      exact Or.inl rfl
    · rw [if_neg (by simpa [EFloat.ltb] using h)]
      exact Or.inr ⟨q - offset, rfl, le_of_not_lt h⟩

theorem dichotomy_val {c : EFloat} (h : heightDichotomy c) :
    ∃ q : ℚ, c = EFloat.val q := by
  rcases h with rfl | ⟨q, rfl, _⟩
  · exact ⟨0, rfl⟩
  · exact ⟨q, rfl⟩

theorem amax_dichotomy {a b : EFloat} (ha : heightDichotomy a)
    (hb : heightDichotomy b) : heightDichotomy (EFloat.amax a b) := by
  rcases ha with rfl | ⟨q, rfl, hq⟩ <;> rcases hb with rfl | ⟨r, rfl, hr⟩
  · exact Or.inl (by simp [EFloat.amax])
  · refine Or.inr ⟨max 0 r, by simp [EFloat.amax], le_trans hr (le_max_right _ _)⟩
  · refine Or.inr ⟨max q 0, by simp [EFloat.amax], le_trans hq (le_max_left _ _)⟩
  · refine Or.inr ⟨max q r, by simp [EFloat.amax], le_trans hq (le_max_left _ _)⟩

theorem foldl_amax_dichotomy (l : List EFloat) :
    ∀ (acc : EFloat), (acc = EFloat.ninf ∨ heightDichotomy acc) →
      (∀ c ∈ l, c = EFloat.ninf ∨ heightDichotomy c) →
      ((l.foldl EFloat.amax acc = EFloat.ninf ∨
        heightDichotomy (l.foldl EFloat.amax acc)) ∧
       (heightDichotomy acc → heightDichotomy (l.foldl EFloat.amax acc))) := by
  induction l with
  | nil => intro acc hacc _; exact ⟨hacc, fun h => h⟩
  | cons c rest ih =>
    intro acc hacc hl
    have hc := hl c (List.mem_cons_self _ _)
    have hstep : (EFloat.amax acc c = EFloat.ninf ∨
        heightDichotomy (EFloat.amax acc c)) ∧
        (heightDichotomy acc → heightDichotomy (EFloat.amax acc c)) := by
      rcases hacc with rfl | hda
      · rcases hc with rfl | hdc
        · exact ⟨Or.inl rfl, fun h => absurd h (by rintro (h | ⟨q, h, _⟩) <;> simp_all)⟩
        · obtain ⟨q, rfl⟩ := dichotomy_val hdc
          exact ⟨Or.inr (by simpa [EFloat.amax] using hdc),
            fun h => by simpa [EFloat.amax] using hdc⟩
      · rcases hc with rfl | hdc
        · obtain ⟨q, hq⟩ := dichotomy_val hda
          subst hq
          exact ⟨Or.inr (by simpa [EFloat.amax] using hda),
            fun _ => by simpa [EFloat.amax] using hda⟩
        · exact ⟨Or.inr (amax_dichotomy hda hdc),
            fun _ => amax_dichotomy hda hdc⟩
    have hrest : ∀ c' ∈ rest, c' = EFloat.ninf ∨ heightDichotomy c' :=
      fun c' hc' => hl c' (List.mem_cons_of_mem _ hc')
    obtain ⟨h1, h2⟩ := ih (EFloat.amax acc c) hstep.1 hrest
    exact ⟨h1, fun hd => h2 (hstep.2 hd)⟩

theorem foldl_amax_exists_dichotomy (l : List EFloat) :
    ∀ (acc : EFloat), (acc = EFloat.ninf ∨ heightDichotomy acc) →
      (∀ c ∈ l, c = EFloat.ninf ∨ heightDichotomy c) →
      (∃ c ∈ l, heightDichotomy c) →
      heightDichotomy (l.foldl EFloat.amax acc) := by
  induction l with
  | nil => intro acc _ _ hex; simp at hex
  | cons c rest ih =>
    intro acc hacc hl hex
    have hc := hl c (List.mem_cons_self _ _)
    have hrest : ∀ c' ∈ rest, c' = EFloat.ninf ∨ heightDichotomy c' :=
      fun c' hc' => hl c' (List.mem_cons_of_mem _ hc')
    obtain ⟨w, hw, hdw⟩ := hex
    rcases List.mem_cons.mp hw with rfl | hwrest
    · -- the head already satisfies the dichotomy
      have hstep : heightDichotomy (EFloat.amax acc w) := by
        rcases hacc with rfl | hda
        · obtain ⟨q, rfl⟩ := dichotomy_val hdw
          simpa [EFloat.amax] using hdw
        · exact amax_dichotomy hda hdw
      exact (foldl_amax_dichotomy rest (EFloat.amax acc w)
        (Or.inr hstep) hrest).2 hstep
    · -- a later element satisfies the dichotomy
      have hstep : EFloat.amax acc c = EFloat.ninf ∨
          heightDichotomy (EFloat.amax acc c) := by
        rcases hacc with rfl | hda
        · rcases hc with rfl | hdc
          · exact Or.inl rfl
          · obtain ⟨q, rfl⟩ := dichotomy_val hdc
            exact Or.inr (by simpa [EFloat.amax] using hdc)
        · rcases hc with rfl | hdc
          · obtain ⟨q, hq⟩ := dichotomy_val hda
            subst hq
            exact Or.inr (by simpa [EFloat.amax] using hda)
          · exact Or.inr (amax_dichotomy hda hdc)
      exact ih (EFloat.amax acc c) hstep hrest ⟨w, hwrest, hdw⟩

theorem list_getD_oob {α : Type} {l : List α} {i : ℕ} (h : l.length ≤ i)
    (d : α) : l.getD i d = d := by
  rw [List.getD_eq_getElem?_getD, List.getElem?_eq_none h]
  rfl

theorem cellAtF_index_lt (batch : List LidarEnvInput) (e : ℕ) (i j : ℤ)
    (he : e < batch.length) (h0i : 0 ≤ i) (hiB : i < (Bx : ℤ))
    (h0j : 0 ≤ j) (hjB : j < (By : ℤ)) :
    e * (Bx * By) + i.toNat * By + j.toNat < batch.length * (Bx * By) := by
  rw [Bx_eq] at hiB
  rw [By_eq] at hjB
  rw [Bx_eq, By_eq]
  have hi' : i.toNat < 17 := by omega
  have hj' : j.toNat < 27 := by omega
  have : e + 1 ≤ batch.length := he
  nlinarith [this, hi', hj']

theorem cellAtF_dichotomy (batch : List LidarEnvInput) (offset : ℚ)
    (e : ℕ) (i j : ℤ) (he : e < batch.length) :
    cellAtF (finalMapList batch offset) e i j = EFloat.ninf ∨
      heightDichotomy (cellAtF (finalMapList batch offset) e i j) := by
  unfold cellAtF
  split
  · next hguard =>
    obtain ⟨h0i, hiB, h0j, hjB⟩ := hguard
    refine Or.inr (finalMapList_shape batch offset _ (list_getD_mem ?_ _))
    rw [finalMapList_length]
    exact cellAtF_index_lt batch e i j he h0i hiB h0j hjB
  · exact Or.inl rfl

theorem cellAtF_center_dichotomy (batch : List LidarEnvInput) (offset : ℚ)
    (e i j : ℕ) (he : e < batch.length) (hi : i < Bx) (hj : j < By) :
    heightDichotomy (cellAtF (finalMapList batch offset) e (i : ℤ) (j : ℤ)) := by
  have h := cellAtF_dichotomy batch offset e (i : ℤ) (j : ℤ) he
  rcases h with hninf | hd
  · exfalso
    unfold cellAtF at hninf
    rw [if_pos ⟨by omega, by omega, by omega, by omega⟩] at hninf
    have hmem : (finalMapList batch offset).getD
        (e * (Bx * By) + (i : ℤ).toNat * By + (j : ℤ).toNat) EFloat.nan ∈
        finalMapList batch offset := by
      apply list_getD_mem
      rw [finalMapList_length]
      exact cellAtF_index_lt batch e i j he (by omega) (by omega)
        (by omega) (by omega)
    have := finalMapList_shape batch offset _ hmem
    rw [hninf] at this
    rcases this with h | ⟨q, h, _⟩ <;> simp_all
  · exact hd

theorem pooledCell_dichotomy (batch : List LidarEnvInput) (offset : ℚ)
    (e i j : ℕ) (he : e < batch.length) (hi : i < Bx) (hj : j < By) :
    heightDichotomy (pooledCell (finalMapList batch offset) e i j) := by
  unfold pooledCell
  apply foldl_amax_exists_dichotomy
  · exact Or.inl rfl
  · intro c hc
    unfold poolWindow at hc
    simp only [List.mem_cons, List.not_mem_nil, or_false] at hc
    rcases hc with rfl|rfl|rfl|rfl|rfl|rfl|rfl|rfl|rfl <;>
      exact cellAtF_dichotomy batch offset e _ _ he
  · refine ⟨cellAtF (finalMapList batch offset) e (i : ℤ) (j : ℤ), ?_, ?_⟩
    · unfold poolWindow
      simp
    · exact cellAtF_center_dichotomy batch offset e i j he hi hj

theorem hml_length (batch : List LidarEnvInput) (offset : ℚ) :
    (height_map_lidar batch offset).length = batch.length := by
  unfold height_map_lidar
  simp

theorem hml_row (batch : List LidarEnvInput) (offset : ℚ) (e : ℕ)
    (he : e < batch.length) :
    (height_map_lidar batch offset).getD e [] =
      (List.range (Bx * By)).map fun fl =>
        pooledCell (finalMapList batch offset) e (fl / By) (fl % By) := by
  unfold height_map_lidar
  rw [list_getD_map _ _ _ [] 0 (by simpa using he)]
  have : (List.range batch.length).getD e 0 = e := by
    rw [List.getD_eq_getElem?_getD, List.getElem?_range he]
    rfl
  rw [this]

theorem hml_lookup_dichotomy (batch : List LidarEnvInput) (offset : ℚ)
    (e fl : ℕ) :
    heightDichotomy (((height_map_lidar batch offset).getD e []).getD fl
      (EFloat.val 0)) := by
  by_cases he : e < batch.length
  · rw [hml_row batch offset e he]
    by_cases hfl : fl < Bx * By
    · rw [list_getD_map _ _ _ (EFloat.val 0) 0 (by simpa using hfl)]
      have hgetfl : (List.range (Bx * By)).getD fl 0 = fl := by
        rw [List.getD_eq_getElem?_getD, List.getElem?_range hfl]
        rfl
      rw [hgetfl]
      have hBy : 0 < By := by rw [By_eq]; omega
      apply pooledCell_dichotomy batch offset e _ _ he
      · have hBx : 0 < Bx := by rw [Bx_eq]; omega
        exact Nat.div_lt_of_lt_mul (by rw [Nat.mul_comm] at hfl; exact hfl)
      · exact Nat.mod_lt _ hBy
    · rw [list_getD_oob (by simpa using Nat.le_of_not_lt hfl)]
      exact Or.inl rfl
  · have houter : (height_map_lidar batch offset).getD e [] = [] :=
      list_getD_oob (by rw [hml_length]; omega) []
    rw [houter]
    exact Or.inl rfl

/-- C2: every value of the `height_map_lidar` output is either exactly
`0.0` or at least `0.05`: a finalized cell height (after the offset
subtraction) strictly below `0.05` is replaced by exactly `0.0`
(`threshold05`, source line 351), every cell of the finalized pre-pool map
satisfies the dichotomy, and the 3×3 max-pool preserves it, so every
output lookup satisfies it as well (out-of-range lookups return the
default `0.0`, which also satisfies it). -/
theorem height_map_output_dichotomy (batch : List LidarEnvInput)
    (offset : ℚ) (e fl : ℕ) (q : ℚ) :
    (threshold05 (EFloat.val q) =
      if q < 5/100 then EFloat.val 0 else EFloat.val q) ∧
    heightDichotomy ((finalMapList batch offset).getD fl (EFloat.val 0)) ∧
    heightDichotomy (((height_map_lidar batch offset).getD e []).getD fl
      (EFloat.val 0)) := by
  refine ⟨?_, ?_, hml_lookup_dichotomy batch offset e fl⟩
  · by_cases h : q < 5/100 <;> simp [threshold05, EFloat.ltb, h]
  · by_cases hfl : fl < (finalMapList batch offset).length
    · exact finalMapList_shape batch offset _ (list_getD_mem hfl _)
    · rw [list_getD_oob (Nat.le_of_not_lt hfl)]
      exact Or.inl rfl

/-- C3: no value of the `height_map_lidar` output is NaN or infinite, for
every input batch — including batches whose ray hits or sensor positions
contain NaN or infinite coordinates (every cell satisfies the value
dichotomy, hence is a finite value). -/
theorem height_map_output_finite (batch : List LidarEnvInput)
    (offset : ℚ) (e fl : ℕ) :
    (((height_map_lidar batch offset).getD e []).getD fl
        (EFloat.val 0)).isNan = false ∧
    (((height_map_lidar batch offset).getD e []).getD fl
        (EFloat.val 0)).isInf = false := by
  obtain ⟨q, hq⟩ := dichotomy_val (hml_lookup_dichotomy batch offset e fl)
  rw [hq]
  exact ⟨rfl, rfl⟩

/-! ### The max-pool dominates each window cell -/

theorem amax_isNan {a c : EFloat} (ha : a.isNan = false)
    (hc : c.isNan = false) : (EFloat.amax a c).isNan = false := by
  cases a <;> cases c <;> simp_all [EFloat.amax, EFloat.isNan]

theorem leb_self_amax {a c : EFloat} (ha : a.isNan = false)
    (hc : c.isNan = false) :
    EFloat.leb a (EFloat.amax a c) = true ∧
    EFloat.leb c (EFloat.amax a c) = true := by
  cases a <;> cases c <;>
    simp_all [EFloat.amax, EFloat.leb, EFloat.isNan, le_max_left, le_max_right]

theorem leb_trans {a b c : EFloat} (hab : EFloat.leb a b = true)
    (hbc : EFloat.leb b c = true) : EFloat.leb a c = true := by
  cases a <;> cases b <;> cases c <;>
    simp_all [EFloat.leb] <;> exact le_trans hab hbc

theorem foldl_amax_isNan (l : List EFloat) :
    ∀ (acc : EFloat), acc.isNan = false → (∀ c ∈ l, c.isNan = false) →
      (l.foldl EFloat.amax acc).isNan = false := by
  induction l with
  | nil => intro acc hacc _; exact hacc
  | cons c rest ih =>
    intro acc hacc hl
    exact ih _ (amax_isNan hacc (hl c (List.mem_cons_self _ _)))
      (fun x hx => hl x (List.mem_cons_of_mem _ hx))

theorem leb_foldl_amax (l : List EFloat) :
    ∀ (acc a : EFloat), a.isNan = false → acc.isNan = false →
      (∀ c ∈ l, c.isNan = false) → EFloat.leb a acc = true →
      EFloat.leb a (l.foldl EFloat.amax acc) = true := by
  induction l with
  | nil => intro acc a _ _ _ h; exact h
  | cons c rest ih =>
    intro acc a hna hnacc hl h
    have hnc := hl c (List.mem_cons_self _ _)
    refine ih _ a hna (amax_isNan hnacc hnc)
      (fun x hx => hl x (List.mem_cons_of_mem _ hx)) ?_
    exact leb_trans h (leb_self_amax hnacc hnc).1

theorem leb_mem_foldl_amax {l : List EFloat} {c : EFloat} (hc : c ∈ l)
    (acc : EFloat) (hnacc : acc.isNan = false)
    (hl : ∀ x ∈ l, x.isNan = false) :
    EFloat.leb c (l.foldl EFloat.amax acc) = true := by
  obtain ⟨s, t, rfl⟩ := List.append_of_mem hc
  have hnc := hl c (by simp)
  have hns : ∀ x ∈ s, x.isNan = false := fun x hx => hl x (by simp [hx])
  have hnt : ∀ x ∈ t, x.isNan = false := fun x hx => hl x (by simp [hx])
  rw [List.foldl_append, List.foldl_cons]
  have hacc1 : (s.foldl EFloat.amax acc).isNan = false :=
    foldl_amax_isNan s acc hnacc hns
  exact leb_foldl_amax t _ c hnc (amax_isNan hacc1 hnc) hnt
    (leb_self_amax hacc1 hnc).2

theorem cellAtF_not_nan (batch : List LidarEnvInput) (offset : ℚ)
    (e : ℕ) (i j : ℤ) (he : e < batch.length) :
    (cellAtF (finalMapList batch offset) e i j).isNan = false := by
  rcases cellAtF_dichotomy batch offset e i j he with h | h
  · rw [h]; rfl
  · obtain ⟨q, hq⟩ := dichotomy_val h
    rw [hq]; rfl

/-- C7: after the 3×3 stride-1 padding-1 max-pool, every grid cell's value
is greater than or equal to its pre-pool (finalized) value: the pooling
window of cell `(i, j)` contains the cell itself, so the maximum dominates
it (comparison in the IEEE order `EFloat.leb`; the cells involved are
never NaN). -/
theorem maxpool_ge_prepool (batch : List LidarEnvInput) (offset : ℚ)
    (e i j : ℕ) (he : e < batch.length) :
    EFloat.leb (cellAtF (finalMapList batch offset) e (i : ℤ) (j : ℤ))
      (pooledCell (finalMapList batch offset) e i j) = true := by
  unfold pooledCell
  apply leb_mem_foldl_amax
  · unfold poolWindow
    simp
  · rfl
  · intro x hx
    unfold poolWindow at hx
    simp only [List.mem_cons, List.not_mem_nil, or_false] at hx
    rcases hx with rfl|rfl|rfl|rfl|rfl|rfl|rfl|rfl|rfl <;>
      exact cellAtF_not_nan batch offset e _ _ he

/-- C5: a surviving point whose local-frame x lies exactly on an interior
bin edge `x_min + (k+1) * cell_size` is bucketized to `k + 1` — the index
of the first edge it does not exceed, which is also the first index at
which `x ≤ edge` holds — so after the `- 1` of the source it is assigned
bin `k`, whose upper edge it does not exceed (the point equals the edge at
index `k + 1` of `x_bins`). -/
theorem bucketize_bin_edge_assignment (k : Fin 16) :
    bucketize (range_x.1 + ((k : ℕ) + 1) * voxel_size_xy) x_bins
        = (k : ℕ) + 1 ∧
    x_bins.getD ((k : ℕ) + 1) 0
        = range_x.1 + ((k : ℕ) + 1) * voxel_size_xy ∧
    x_bins.findIdx
        (fun b => decide (range_x.1 + ((k : ℕ) + 1) * voxel_size_xy ≤ b))
        = (k : ℕ) + 1 := by
  revert k
  with_unfolding_all decide

/-- C9: `height_map_lidar` is a pure function of its inputs: with the
module-level deque `prev_height_maps` threaded explicitly as state, the
state is returned unchanged, the result is exactly the stateless
computation, and the result does not depend on the ambient state, so two
consecutive calls with the same inputs see identical ambient state and
produce identical outputs. -/
theorem height_map_lidar_stateless (st st2 : List (List (List EFloat)))
    (batch : List LidarEnvInput) (offset : ℚ) :
    (height_map_lidar_with_state st batch offset).1 = st ∧
    (height_map_lidar_with_state st batch offset).2 =
      height_map_lidar batch offset ∧
    (height_map_lidar_with_state st batch offset).2 =
      (height_map_lidar_with_state st2 batch offset).2 :=
  ⟨rfl, rfl, rfl⟩

theorem process_lidar_elem_bounds (pz hz : EFloat) (offset : ℚ) :
    ∃ q : ℚ, process_lidar_elem pz hz offset = EFloat.val q ∧
      -(1/2) ≤ q ∧ q ≤ 1/2 := by
  unfold process_lidar_elem
  rcases hr : (pz.sub hz).sub (EFloat.val offset) with _ | _ | _ | q
  · exact ⟨1/2, by norm_num [EFloat.isNan, EFloat.isInf, EFloat.amax,
      EFloat.amin], by norm_num, by norm_num⟩
  · exact ⟨1/2, by norm_num [EFloat.isNan, EFloat.isInf, EFloat.amax,
      EFloat.amin], by norm_num, by norm_num⟩
  · exact ⟨1/2, by norm_num [EFloat.isNan, EFloat.isInf, EFloat.amax,
      EFloat.amin], by norm_num, by norm_num⟩
  · refine ⟨min (max q 0) 5 / 5 - 1/2, ?_, ?_, ?_⟩
    · simp [EFloat.isNan, EFloat.isInf, EFloat.amax, EFloat.amin]
    · have h0 : (0 : ℚ) ≤ min (max q 0) 5 :=
        le_min (le_max_right q 0) (by norm_num)
      have : (0 : ℚ) ≤ min (max q 0) 5 / 5 := by positivity
      linarith
    · have h5 : min (max q 0) 5 ≤ (5 : ℚ) := min_le_right _ _
      have : min (max q 0) 5 / 5 ≤ (1 : ℚ) := by
        rw [div_le_one (by norm_num : (0:ℚ) < 5)]
        exact h5
      linarith

/-- C10: every value of the `process_lidar` output is a finite value in
`[-0.5, 0.5]` (the reading is clipped to `[0, 5]` and affinely normalized),
and a NaN or infinite height reading `pos_z - hit_z - offset` is replaced
by the far clip `5.0` before clipping, yielding exactly `0.5` at its
position. -/
theorem process_lidar_output_bounds (envs : List (EV3 × List EV3))
    (offset : ℚ) (e r : ℕ) (pz hz : EFloat) (offset2 : ℚ) :
    (∃ q : ℚ, ((process_lidar envs offset).getD e []).getD r
        (EFloat.val 0) = EFloat.val q ∧ -(1/2) ≤ q ∧ q ≤ 1/2) ∧
    (((pz.sub hz).sub (EFloat.val offset2)).isNan = true ∨
        ((pz.sub hz).sub (EFloat.val offset2)).isInf = true →
      process_lidar_elem pz hz offset2 = EFloat.val (1/2)) := by
  constructor
  · by_cases he : e < envs.length
    · unfold process_lidar
      rw [list_getD_map _ _ _ [] (zeroEV, []) (by simpa using he)]
      by_cases hrr : r < (envs.getD e (zeroEV, [])).2.length
      · rw [list_getD_map _ _ _ (EFloat.val 0) zeroEV (by simpa using hrr)]
        exact process_lidar_elem_bounds _ _ _
      · rw [list_getD_oob (by simpa using Nat.le_of_not_lt hrr)]
        exact ⟨0, rfl, by norm_num, by norm_num⟩
    · have houter : (process_lidar envs offset).getD e [] = [] :=
        list_getD_oob (by simpa [process_lidar] using Nat.le_of_not_lt he) []
      rw [houter]
      exact ⟨0, rfl, by norm_num, by norm_num⟩
  · intro h
    unfold process_lidar_elem
    rcases hr : (pz.sub hz).sub (EFloat.val offset2) with _ | _ | _ | q
    · norm_num [EFloat.isNan, EFloat.isInf, EFloat.amax, EFloat.amin]
    · norm_num [EFloat.isNan, EFloat.isInf, EFloat.amax, EFloat.amin]
    · norm_num [EFloat.isNan, EFloat.isInf, EFloat.amax, EFloat.amin]
    · rw [hr] at h
      simp [EFloat.isNan, EFloat.isInf] at h

/-! ### Replacing or removing one ray of one environment -/

/-- Apply `f` to the environment at index `e` (identity out of range). -/
def updateEnv : List LidarEnvInput → ℕ → (LidarEnvInput → LidarEnvInput) →
    List LidarEnvInput
  | [], _, _ => []
  | b :: bs, 0, f => f b :: bs
  | b :: bs, n + 1, f => b :: updateEnv bs n f

/-- Remove ray `i` of environment `e` from the batch. -/
def eraseRay (batch : List LidarEnvInput) (e i : ℕ) : List LidarEnvInput :=
  updateEnv batch e fun inp => ⟨inp.rayHits.eraseIdx i, inp.pos, inp.robotQuat⟩

/-- Replace the world coordinates of ray `i` of environment `e` by NaN. -/
def setRayNaN (batch : List LidarEnvInput) (e i : ℕ) : List LidarEnvInput :=
  updateEnv batch e fun inp => ⟨inp.rayHits.set i nanEV, inp.pos, inp.robotQuat⟩

/-- Replace ray `i` of environment `e` by a hit exactly at that
environment's sensor origin (zero displacement). -/
def setRayOrigin (batch : List LidarEnvInput) (e i : ℕ) : List LidarEnvInput :=
  updateEnv batch e fun inp => ⟨inp.rayHits.set i inp.pos, inp.pos, inp.robotQuat⟩

theorem updateEnv_length (batch : List LidarEnvInput) :
    ∀ (e : ℕ) (f : LidarEnvInput → LidarEnvInput),
      (updateEnv batch e f).length = batch.length := by
  induction batch with
  | nil => intro e f; rfl
  | cons b bs ih =>
    intro e f
    cases e with
    | zero => rfl
    | succ n => show (b :: updateEnv bs n f).length = _; simp [ih]

theorem binnedFrom_updateEnv (batch : List LidarEnvInput) :
    ∀ (e0 e : ℕ) (f g : LidarEnvInput → LidarEnvInput),
      (∀ ee : ℕ, binnedEnv ee (f (batch.getD e dfltEnv)) =
        binnedEnv ee (g (batch.getD e dfltEnv))) →
      binnedFrom e0 (updateEnv batch e f) = binnedFrom e0 (updateEnv batch e g) := by
  induction batch with
  | nil => intro e0 e f g _; rfl
  | cons b bs ih =>
    intro e0 e f g hfg
    cases e with
    | zero =>
      simp only [List.getD_cons_zero] at hfg
      show binnedEnv e0 (f b) ++ binnedFrom (e0 + 1) bs =
        binnedEnv e0 (g b) ++ binnedFrom (e0 + 1) bs
      rw [hfg e0]
    | succ n =>
      simp only [List.getD_cons_succ] at hfg
      show binnedEnv e0 b ++ binnedFrom (e0 + 1) (updateEnv bs n f) =
        binnedEnv e0 b ++ binnedFrom (e0 + 1) (updateEnv bs n g)
      rw [ih (e0 + 1) n f g hfg]

theorem updateEnv_id (batch : List LidarEnvInput) :
    ∀ (e : ℕ), updateEnv batch e (fun inp => inp) = batch := by
  induction batch with
  | nil => intro e; rfl
  | cons b bs ih =>
    intro e
    cases e with
    | zero => rfl
    | succ n => show b :: updateEnv bs n _ = _; rw [ih n]

theorem hml_congr {b1 b2 : List LidarEnvInput} (offset : ℚ)
    (hbin : binned b1 = binned b2) (hlen : b1.length = b2.length) :
    height_map_lidar b1 offset = height_map_lidar b2 offset := by
  have hfm : finalMapList b1 offset = finalMapList b2 offset := by
    unfold finalMapList rawMapList
    rw [hbin, hlen]
  unfold height_map_lidar
  rw [hfm, hlen]

theorem list_map_eraseIdx {α β : Type} (f : α → β) (l : List α) :
    ∀ (i : ℕ), (l.eraseIdx i).map f = (l.map f).eraseIdx i := by
  induction l with
  | nil => intro i; rfl
  | cons a t ih =>
    intro i
    cases i with
    | zero => rfl
    | succ n => show (a :: t.eraseIdx n).map f = _; simp [ih n, List.eraseIdx]

theorem list_filter_eraseIdx {α : Type} (p : α → Bool) (l : List α) :
    ∀ (i : ℕ), (∀ v, l[i]? = some v → p v = false) →
      (l.eraseIdx i).filter p = l.filter p := by
  induction l with
  | nil => intro i _; rfl
  | cons a t ih =>
    intro i hi
    cases i with
    | zero =>
      have ha : p a = false := hi a (by simp)
      show t.filter p = (a :: t).filter p
      rw [List.filter_cons_of_neg (by simp [ha])]
    | succ n =>
      show (a :: t.eraseIdx n).filter p = (a :: t).filter p
      have ht : (t.eraseIdx n).filter p = t.filter p :=
        ih n fun v hv => hi v (by simpa using hv)
      cases hpa : p a with
      | true =>
        rw [List.filter_cons_of_pos hpa, List.filter_cons_of_pos hpa, ht]
      | false =>
        rw [List.filter_cons_of_neg (by simp [hpa]),
            List.filter_cons_of_neg (by simp [hpa]), ht]

theorem list_map_set {α β : Type} (f : α → β) (l : List α) :
    ∀ (i : ℕ) (a : α), (l.set i a).map f = (l.map f).set i (f a) := by
  induction l with
  | nil => intro i a; rfl
  | cons b t ih =>
    intro i a
    cases i with
    | zero => rfl
    | succ n => show (b :: t.set n a).map f = _; simp [ih n a, List.set]

theorem hitVecSanitized_nan (p : EV3) :
    hitVecSanitized nanEV p = ⟨0, 0, 0⟩ := by
  unfold hitVecSanitized nanEV
  rw [EFloat.sanitize_sub_nan, EFloat.sanitize_sub_nan, EFloat.sanitize_sub_nan]
  rfl

theorem hitVecSanitized_self (p : EV3) :
    hitVecSanitized p p = ⟨0, 0, 0⟩ := by
  unfold hitVecSanitized
  rw [EFloat.sanitize_sub_self, EFloat.sanitize_sub_self, EFloat.sanitize_sub_self]
  rfl

/-- C4 (amended): replacing a ray's world coordinates with NaN yields the
same `height_map_lidar` output as replacing that ray with a hit exactly at
the environment's own sensor origin — both sanitize to the zero
displacement, whose local point is `(0, 0, 0)`; this point passes the range
filter (since `z = 0` is admitted by `range_z`) and contributes `z = 0` to
the cell containing the local origin, so the NaN ray is not equivalent to
removing the ray. -/
theorem nan_ray_equals_origin_ray (batch : List LidarEnvInput) (offset : ℚ)
    (e i : ℕ) :
    height_map_lidar (setRayNaN batch e i) offset =
      height_map_lidar (setRayOrigin batch e i) offset := by
  apply hml_congr
  · show binnedFrom 0 _ = binnedFrom 0 _
    apply binnedFrom_updateEnv
    intro ee
    set env := batch.getD e dfltEnv with henv
    show binnedEnv ee ⟨env.rayHits.set i nanEV, env.pos, env.robotQuat⟩ =
      binnedEnv ee ⟨env.rayHits.set i env.pos, env.pos, env.robotQuat⟩
    unfold binnedEnv localPoints
    simp only [list_map_set]
    rw [hitVecSanitized_nan, hitVecSanitized_self]
  · unfold setRayNaN setRayOrigin
    rw [updateEnv_length, updateEnv_length]

theorem mem_binnedFrom_of_env (envs : List LidarEnvInput) :
    ∀ (e0 e : ℕ), e < envs.length →
      ∀ p, p ∈ binnedEnv (e0 + e) (envs.getD e dfltEnv) →
        p ∈ binnedFrom e0 envs := by
  induction envs with
  | nil => intro e0 e he; simp at he
  | cons b bs ih =>
    intro e0 e he p hp
    cases e with
    | zero =>
      simp only [List.getD_cons_zero, Nat.add_zero] at hp
      show p ∈ binnedEnv e0 b ++ binnedFrom (e0 + 1) bs
      exact List.mem_append_left _ hp
    | succ n =>
      simp only [List.getD_cons_succ] at hp
      show p ∈ binnedEnv e0 b ++ binnedFrom (e0 + 1) bs
      refine List.mem_append_right _ ?_
      refine ih (e0 + 1) n (by simpa using he) p ?_
      have : e0 + 1 + n = e0 + (n + 1) := by omega
      rw [this]
      exact hp

/-- C6: a sanitized local-frame point contributes to the grid exactly when
`x ∈ (x_min, x_max]`, `y ∈ (y_min, y_max]` and `z ∈ [z_min, z_max]`:
(1) the filter `inRange` is precisely that predicate, (2) removing a ray
whose local point fails the predicate leaves the output unchanged (the
point contributes to no cell), and (3) a ray whose local point passes the
predicate contributes its `(flat cell index, z)` pair to the scatter
stream. -/
theorem filter_range_characterization (batch : List LidarEnvInput)
    (offset : ℚ) (e i ew iw : ℕ) (v w : V3) :
    (inRange v = true ↔
      (range_x.1 < v.x ∧ v.x ≤ range_x.2 ∧ range_y.1 < v.y ∧
       v.y ≤ range_y.2 ∧ range_z.1 ≤ v.z ∧ v.z ≤ range_z.2)) ∧
    ((localPoints (batch.getD e dfltEnv))[i]? = some v →
      inRange v = false →
      height_map_lidar (eraseRay batch e i) offset =
        height_map_lidar batch offset) ∧
    ((localPoints (batch.getD ew dfltEnv))[iw]? = some w →
      inRange w = true → ew < batch.length →
      (flatIdx ew w, w.z) ∈ binned batch) := by
  refine ⟨inRange_iff v, ?_, ?_⟩
  · intro hget hfail
    apply hml_congr
    · unfold binned eraseRay
      have := binnedFrom_updateEnv batch 0 e
        (fun inp => ⟨inp.rayHits.eraseIdx i, inp.pos, inp.robotQuat⟩)
        (fun inp => inp) ?_
      · rw [this, updateEnv_id]
      · intro ee
        set env := batch.getD e dfltEnv with henv
        show binnedEnv ee ⟨env.rayHits.eraseIdx i, env.pos, env.robotQuat⟩ =
          binnedEnv ee env
        unfold binnedEnv localPoints
        simp only [list_map_eraseIdx]
        congr 1
        apply list_filter_eraseIdx
        intro u hu
        unfold localPoints at hget
        rw [hget] at hu
        cases hu
        exact hfail
    · unfold eraseRay
      rw [updateEnv_length]
  · intro hget hpass hew
    show _ ∈ binnedFrom 0 batch
    refine mem_binnedFrom_of_env batch 0 ew hew _ ?_
    rw [Nat.zero_add]
    unfold binnedEnv
    refine List.mem_map.mpr ⟨w, ?_, rfl⟩
    refine List.mem_filter.mpr ⟨?_, hpass⟩
    exact List.getElem?_mem hget

/-! ### Concrete scenarios -/

/-- The C8 scenario environment realizable in the code: robot orientation
`mountConj` (the conjugate of the hard-coded mount quaternion, so the
composed sensor rotation is a pure scaling), sensor at the origin, 4 rays:
one whose sensor-local point is exactly `(0, 0, 1.2)` and three whose local
z is negative (filtered out). -/
def c8Env : LidarEnvInput :=
  ⟨[goodHit, dummyHit, dummyHit, dummyHit], zeroEV, mountConj⟩

/-- The expected C8 output grid: `0.7` on the 3×3 neighborhood of cell
`(13, 13)` (the cell containing local `(0, 0)`), `0.0` elsewhere. -/
def c8Expected : List EFloat :=
  (List.range (Bx * By)).map fun fl =>
    if 11 < fl / By ∧ fl / By < 15 ∧ 11 < fl % By ∧ fl % By < 15
    then EFloat.val (7/10) else EFloat.val 0

/-- The C8 scenario as literally stated (zero mount offset): identity robot
quaternion, a hit directly above/below the origin with `|z| = 1.2` —
under a zero mount rotation its local point would be `(0, 0, 1.2)`. -/
def cex8Env : LidarEnvInput :=
  ⟨[⟨EFloat.val 0, EFloat.val 0, EFloat.val (6/5)⟩, dummyHit, dummyHit,
    dummyHit], zeroEV, ⟨1, 0, 0, 0⟩⟩

/-- A batch for C4: ray 0 is a dummy that will be replaced (by NaN or by
removal), ray 1 maps to local `(0, 0, 1.2)` in cell `(13, 13)`. -/
def c4Base : List LidarEnvInput :=
  [⟨[dummyHit, goodHit], zeroEV, mountConj⟩]

/-- C4 counterexample: on `c4Base`, replacing ray 0 by NaN gives `0.0` at
cell `(13, 13)` (the sanitized zero displacement contributes `z = 0`,
dragging the cell minimum to `0`, which the offset/threshold maps to `0`),
while removing ray 0 gives `0.7` there — so NaN-replacement and removal do
not agree, refuting the claim as stated. -/
theorem nan_ray_removal_counterexample :
    ((height_map_lidar (setRayNaN c4Base 0 0) (1/2)).getD 0 []).getD 364
        EFloat.nan = EFloat.val 0 ∧
    ((height_map_lidar (eraseRay c4Base 0 0) (1/2)).getD 0 []).getD 364
        EFloat.nan = EFloat.val (7/10) ∧
    height_map_lidar (setRayNaN c4Base 0 0) (1/2) ≠
      height_map_lidar (eraseRay c4Base 0 0) (1/2) := by
  have h1 : ((height_map_lidar (setRayNaN c4Base 0 0) (1/2)).getD 0 []).getD
      364 EFloat.nan = EFloat.val 0 := by decide!
  have h2 : ((height_map_lidar (eraseRay c4Base 0 0) (1/2)).getD 0 []).getD
      364 EFloat.nan = EFloat.val (7/10) := by decide!
  refine ⟨h1, h2, fun hcontra => ?_⟩
  rw [hcontra] at h1
  have : EFloat.val (0 : ℚ) = EFloat.val (7/10) := h1.symm.trans h2
  exact absurd this (by decide!)

/-- C8 counterexample: on the scenario input as literally stated (zero
mount offset realized by an identity robot quaternion and a hit whose
displacement is `(0, 0, 1.2)`), the code applies its hard-coded non-zero
mount quaternion: the hit's sensor-local z becomes negative, the point is
filtered out, and the cell containing local `(0, 0)` (flat index
`13 * 27 + 13 = 364`) is `0.0`, not the claimed `0.7`. -/
theorem scenario_zero_mount_counterexample :
    ((height_map_lidar [cex8Env] (1/2)).getD 0 []).getD 364 EFloat.nan =
      EFloat.val 0 ∧
    EFloat.val (0 : ℚ) ≠ EFloat.val (7/10) := by
  constructor
  · decide!
  · decide!

set_option maxHeartbeats 2000000 in
/-- C8 (amended): with the hard-coded mount quaternion of the source (and
the robot quaternion chosen as its conjugate so that the composed rotation
is a pure scaling), a single environment with 4 rays, one of which has
sensor-local coordinates exactly `(0, 0, 1.2)` and the rest filtered out,
`height_map_lidar` with `offset = 0.5` returns one row of `Bx * By = 459`
cells (`Bx = 17`, `By = 27`) equal to `0.7` on the 3×3 pooled neighborhood
of cell `(13, 13)` — the cell containing local `(0, 0)` — and `0.0`
everywhere else. -/
theorem scenario_hardcoded_mount :
    height_map_lidar [c8Env] (1/2) = [c8Expected] ∧
    Bx = 17 ∧ By = 27 ∧
    (height_map_lidar [c8Env] (1/2)).length = 1 ∧
    c8Expected.length = Bx * By ∧
    c8Expected.getD (13 * By + 13) EFloat.nan = EFloat.val (7/10) ∧
    c8Expected.getD 0 EFloat.nan = EFloat.val 0 := by
  have hmain : height_map_lidar [c8Env] (1/2) = [c8Expected] := by decide!
  have hlen1 : (height_map_lidar [c8Env] (1/2)).length = 1 := by
    rw [hmain]
    rfl
  have hlen2 : c8Expected.length = Bx * By := by
    unfold c8Expected
    rw [List.length_map, List.length_range]
  have hcenter : c8Expected.getD (13 * By + 13) EFloat.nan =
      EFloat.val (7/10) := by decide!
  have hzero : c8Expected.getD 0 EFloat.nan = EFloat.val 0 := by decide!
  exact ⟨hmain, Bx_eq, By_eq, hlen1, hlen2, hcenter, hzero⟩

/-! ### Witnesses -/

theorem height_map_raw_cell_min_witness :
    0 < ([c8Env] : List LidarEnvInput).length ∧ 13 < Bx ∧ 13 < By ∧
    (((rawMapList [c8Env]).getD (cellFlat 0 13 13) EFloat.nan =
      (match (cellZs ([c8Env].getD 0 dfltEnv) 13 13).min? with
       | none => EFloat.pinf
       | some m => EFloat.val m)) ∧
     (cellZs ([c8Env].getD 0 dfltEnv) 13 13 = [] →
      (finalMapList [c8Env] (1/2)).getD (cellFlat 0 13 13) EFloat.nan =
        EFloat.val 0)) :=
  ⟨by decide!, by decide!, by decide!,
    height_map_raw_cell_min [c8Env] (1/2) 0 13 13 (by decide!) (by decide!)
      (by decide!)⟩

/-- The sensor-local point of ray 1 (a dummy ray) of `c8Env`. -/
def dummyLocal : V3 := ⟨0, 0, -(124621143641/125000000000)⟩

/-- The sensor-local point of ray 0 (the surviving ray) of `c8Env`. -/
def goodLocal : V3 := ⟨0, 0, 6/5⟩

theorem filter_range_characterization_witness :
    (localPoints ([c8Env].getD 0 dfltEnv))[1]? = some dummyLocal ∧
    inRange dummyLocal = false ∧
    (localPoints ([c8Env].getD 0 dfltEnv))[0]? = some goodLocal ∧
    inRange goodLocal = true ∧
    0 < ([c8Env] : List LidarEnvInput).length ∧
    (inRange goodLocal = true ↔
      (range_x.1 < goodLocal.x ∧ goodLocal.x ≤ range_x.2 ∧
       range_y.1 < goodLocal.y ∧ goodLocal.y ≤ range_y.2 ∧
       range_z.1 ≤ goodLocal.z ∧ goodLocal.z ≤ range_z.2)) ∧
    height_map_lidar (eraseRay [c8Env] 0 1) (1/2) =
      height_map_lidar [c8Env] (1/2) ∧
    (flatIdx 0 goodLocal, goodLocal.z) ∈ binned [c8Env] :=
  ⟨by decide!, by decide!, by decide!, by decide!, by decide!,
    (filter_range_characterization [c8Env] (1/2) 0 1 0 0 goodLocal
      goodLocal).1,
    (filter_range_characterization [c8Env] (1/2) 0 1 0 0 dummyLocal
      goodLocal).2.1 (by decide!) (by decide!),
    (filter_range_characterization [c8Env] (1/2) 0 1 0 0 dummyLocal
      goodLocal).2.2 (by decide!) (by decide!) (by decide!)⟩

theorem maxpool_ge_prepool_witness :
    0 < ([c8Env] : List LidarEnvInput).length ∧
    EFloat.leb (cellAtF (finalMapList [c8Env] (1/2)) 0 ((13 : ℕ) : ℤ)
        ((13 : ℕ) : ℤ))
      (pooledCell (finalMapList [c8Env] (1/2)) 0 13 13) = true :=
  ⟨by decide!, maxpool_ge_prepool [c8Env] (1/2) 0 13 13 (by decide!)⟩

theorem process_lidar_output_bounds_witness :
    (((EFloat.val 0).sub EFloat.nan).sub (EFloat.val (1/2))).isNan = true ∧
    process_lidar_elem (EFloat.val 0) EFloat.nan (1/2) = EFloat.val (1/2) ∧
    (∃ q : ℚ, ((process_lidar [(zeroEV, [nanEV])] (1/2)).getD 0 []).getD 0
        (EFloat.val 0) = EFloat.val q ∧ -(1/2) ≤ q ∧ q ≤ 1/2) :=
  ⟨by decide!,
    (process_lidar_output_bounds [(zeroEV, [nanEV])] (1/2) 0 0 (EFloat.val 0)
      EFloat.nan (1/2)).2 (Or.inl (by decide!)),
    (process_lidar_output_bounds [(zeroEV, [nanEV])] (1/2) 0 0 (EFloat.val 0)
      EFloat.nan (1/2)).1⟩
